import Mathlib

/-!
Verification of the safe-sift query-introspection core: a shallow embedding of
`src/getValue/normalize-query.ts` (`normalizeQuery`, `normalizeEquality`),
`src/getValue/getters.ts` / `get-filter-ops.ts` / `get-filter-value.ts`
(`getFilterOps`, `getFilterValue`, `bagFromPreds`, `mergeOpsBags`),
`src/types/get-options.ts` (`isOperatorKey`), and `src/are-queries-equal.ts`
(`areQueriesEqual`, `deepEqual`, `isObject`).

Modelling conventions for JavaScript values:
* Numbers are modelled as `Int`; no verified property depends on float behaviour.
* A JS object is its list of enumerable own properties in insertion order
  (`JsFields`); lists stand for runtime objects, whose keys are distinct.
  Queries in this library use non-numeric keys, so insertion order is also
  enumeration order.
* Values that are objects but not plain objects and not arrays (`Date`,
  `RegExp`, ...) are `vExotic ref`: their `Object.prototype.toString` tag is
  not `"[object Object]"`, they expose no enumerable own properties, and
  `ref` is their reference identity (`===` compares references for objects).
  Distinct literals in a statement denote distinct references; a JS `===`
  shortcut on an aliased plain object or array is subsumed by the structural
  path, which is reflexive.
-/

mutual

inductive JsVal where
  | vNull
  | vUndefined
  | vBool (b : Bool)
  | vNum (n : Int)
  | vStr (s : String)
  | vArr (elems : JsArr)
  | vObj (fields : JsFields)
  | vExotic (ref : Nat)

inductive JsArr where
  | anil
  | acons (hd : JsVal) (tl : JsArr)

inductive JsFields where
  | fnil
  | fcons (key : String) (val : JsVal) (tl : JsFields)

end

namespace JsArr

def toList : JsArr → List JsVal
  | .anil => []
  | .acons x xs => x :: toList xs

end JsArr

namespace JsFields

def toList : JsFields → List (String × JsVal)
  | .fnil => []
  | .fcons k v fs => (k, v) :: toList fs

/-- `Object.keys`: the enumerable own property names, in order. -/
def keys (f : JsFields) : List String := f.toList.map (fun kv => kv.1)

/-- Property read `obj[k]` over a field list, with an explicit default for a
missing key (JS would yield `undefined`). First match; runtime objects have
distinct keys. -/
def lookupD : JsFields → String → JsVal → JsVal
  | .fnil, _, d => d
  | .fcons k' v fs, k, d => if k' = k then v else lookupD fs k d

end JsFields

/-- `typeof` for the modelled values (`typeof null` is `"object"` in JS). -/
def jsTypeof : JsVal → String
  | .vNull => "object"
  | .vUndefined => "undefined"
  | .vBool _ => "boolean"
  | .vNum _ => "number"
  | .vStr _ => "string"
  | .vArr _ => "object"
  | .vObj _ => "object"
  | .vExotic _ => "object"

def isNullish : JsVal → Bool
  | .vNull => true
  | .vUndefined => true
  | _ => false

/-- JS strict equality `===`: value equality on primitives, reference
equality on objects. Distinct compound literals are distinct references. -/
def strictEq : JsVal → JsVal → Bool
  | .vNull, .vNull => true
  | .vUndefined, .vUndefined => true
  | .vBool a, .vBool b => a == b
  | .vNum a, .vNum b => a == b
  | .vStr a, .vStr b => a == b
  | .vExotic r, .vExotic s => r == s
  | _, _ => false

/-- From normalize-query.ts: true only for plain object literals (the
`Object.prototype.toString` tag test excludes `Date`/`RegExp`/..., which are
`vExotic` here). -/
def isPlainObject : JsVal → Bool
  | .vObj _ => true
  | _ => false

/-- From get-options.ts / is-operator-key.ts: `k.startsWith("$")`, spelled as
a first-character test (the prefix is a single character). -/
def isOperatorKey (k : String) : Bool :=
  match k.data with
  | [] => false
  | c :: _ => c == '$'

/-- From types.ts: an atomic `(path, op, value)` constraint. -/
structure Predicate where
  path : String
  op : String
  value : JsVal

/-- From types.ts: the result of normalization, a conjunct list and a list of
OR-branches. -/
structure Normalized where
  and : List Predicate
  or : List (List Predicate)

/-- The loop of normalize-query.ts lines 62-67 (also normalize-equality.ts):
one predicate per operator entry, in entry order, non-operator entries
skipped. -/
def opPreds (path : String) : JsFields → List Predicate
  | .fnil => []
  | .fcons k v fs =>
      (if isOperatorKey k then [Predicate.mk path k v] else []) ++ opPreds path fs

/-- From normalize-equality.ts: an equality or operator-bag value as atomic
predicates. -/
def normalizeEquality (path : String) (v : JsVal) : List Predicate :=
  match v with
  | .vObj fields =>
      if (JsFields.keys fields).all isOperatorKey then opPreds path fields
      else [Predicate.mk path "$eq" v]
  | _ => [Predicate.mk path "$eq" v]

/-- `basePath ? basePath + "." + key : key` (the empty string is falsy). -/
def mkPath (basePath key : String) : String :=
  if basePath = "" then key else basePath ++ "." ++ key

mutual

/-- From normalize-query.ts: flatten a raw query into conjuncts and
OR-branches. A non-plain-object input returns the empty accumulator: the
guard on line 34 rejects null, undefined, primitives and arrays, and an
exotic object has no enumerable entries, so its loop body never runs. -/
def normalizeQuery (q : JsVal) (basePath : String) : Normalized :=
  match q with
  | .vObj fields => normEntries fields basePath
  | _ => Normalized.mk [] []

/-- The `for (const [key, val] of Object.entries(q))` loop: each entry's
contribution is appended to the accumulator in entry order. -/
def normEntries : JsFields → String → Normalized
  | .fnil, _ => Normalized.mk [] []
  | .fcons k v fs, basePath =>
      let hd := normEntry k v basePath
      let tl := normEntries fs basePath
      Normalized.mk (hd.and ++ tl.and) (hd.or ++ tl.or)

/-- One loop iteration of normalize-query.ts, reorganized by the shape of the
value so the recursion is structural: `$and`/`$or` apply only to array
values, `$nor` is dropped whatever its value, and every other combination is
field handling (an operator-bag test on plain objects, else an equality
predicate). The source's `normalizeQuery(val, path)` recursion on a plain
object is written as `normEntries fields path`, which is what that call
reduces to. -/
def normEntry (k : String) (v : JsVal) (basePath : String) : Normalized :=
  match v with
  | .vArr subs =>
      if k = "$and" then normAndList subs basePath
      else if k = "$or" then Normalized.mk [] (normOrList subs basePath)
      else if k = "$nor" then Normalized.mk [] []
      else Normalized.mk (normalizeEquality (mkPath basePath k) (.vArr subs)) []
  | .vObj fields =>
      if k = "$nor" then Normalized.mk [] []
      else
        let path := mkPath basePath k
        if ((JsFields.keys fields).filter isOperatorKey).isEmpty then
          normEntries fields path
        else Normalized.mk (opPreds path fields) []
  | other =>
      if k = "$nor" then Normalized.mk [] []
      else Normalized.mk (normalizeEquality (mkPath basePath k) other) []

/-- The `$and` loop: each element's conjuncts and branches are appended. -/
def normAndList : JsArr → String → Normalized
  | .anil, _ => Normalized.mk [] []
  | .acons s fs, basePath =>
      let n := normalizeQuery s basePath
      let t := normAndList fs basePath
      Normalized.mk (n.and ++ t.and) (n.or ++ t.or)

/-- The `$or` loop: a sub-result's non-empty conjunct list is pushed as one
branch, then its own branches are spliced in. -/
def normOrList : JsArr → String → List (List Predicate)
  | .anil, _ => []
  | .acons s fs, basePath =>
      let n := normalizeQuery s basePath
      (if n.and.isEmpty then [] else [n.and]) ++ n.or ++ normOrList fs basePath

end

/-- An operator bag, as a JS object: operator-token/value pairs with distinct
keys, in insertion order. -/
abbrev OpsBag : Type := List (String × JsVal)

/-- JS property assignment `bag[k] = v`: an existing key keeps its slot and
takes the new value, a fresh key is appended. -/
def bagAssign : OpsBag → String → JsVal → OpsBag
  | [], k, v => [(k, v)]
  | (k', v') :: fs, k, v =>
      if k' = k then (k', v) :: fs else (k', v') :: bagAssign fs k v

/-- Property read `bag[k]`, `none` for a missing key. -/
def bagGet (bag : OpsBag) (k : String) : Option JsVal :=
  (List.find? (fun kv => kv.1 == k) bag).map (fun kv => kv.2)

def bagKeys (bag : OpsBag) : List String := bag.map (fun kv => kv.1)

/-- From bag-from-preds.ts: `for (const p of preds) bag[p.op] = p.value`. -/
def bagFromPreds (preds : List Predicate) : OpsBag :=
  preds.foldl (fun bag p => bagAssign bag p.op p.value) []

/-- `Object.assign(acc, b)`: copy `b`'s entries into `acc` in entry order. -/
def assignAll (acc : OpsBag) (b : OpsBag) : OpsBag :=
  b.foldl (fun x kv => bagAssign x kv.1 kv.2) acc

/-- From merge-ops-bags.ts: `bags.reduce((acc, b) => Object.assign(acc, b), {})`. -/
def mergeOpsBags (bags : List OpsBag) : OpsBag :=
  bags.foldl assignAll []

/-- From or-mode.ts: `"first" | "all"`. -/
inductive OrMode where
  | first
  | all

/-- The result union of getFilterOps: `OpsBag | OpsBag[] | undefined`. -/
inductive FilterOpsResult where
  | undefined
  | bag (b : OpsBag)
  | bags (bs : List OpsBag)

/-- getFilterOps' `andBag`: the AND-level conjuncts on the field, folded. -/
def andBagOf (query : JsVal) (fieldPath : String) : OpsBag :=
  bagFromPreds ((normalizeQuery query "").and.filter (fun p => p.path == fieldPath))

/-- getFilterOps' `branchBags`: each branch restricted to the field and
folded into a bag, empty bags dropped. -/
def branchBagsOf (query : JsVal) (fieldPath : String) : List OpsBag :=
  ((normalizeQuery query "").or.map
      (fun branch => bagFromPreds (branch.filter (fun p => p.path == fieldPath)))).filter
    (fun bag => !bag.isEmpty)

/-- From get-filter-ops.ts: operator bag(s) for a field. `options` models
`GetOptions` (`none` is `{}` / an omitted `orMode`); `options.getD .first`
is `options.orMode || "first"`. -/
def getFilterOps (query : JsVal) (fieldPath : String) (options : Option OrMode) :
    FilterOpsResult :=
  let andBag := andBagOf query fieldPath
  if ((normalizeQuery query "").or).isEmpty then
    (if andBag.isEmpty then .undefined else .bag andBag)
  else
    let branchBags := branchBagsOf query fieldPath
    if branchBags.isEmpty then
      (if andBag.isEmpty then .undefined else .bag andBag)
    else
      match options.getD .first with
      | .first =>
          match branchBags with
          | [] => (if andBag.isEmpty then .undefined else .bag andBag)
          | firstBag :: _ => .bag (mergeOpsBags [andBag, firstBag])
      | .all => .bags (branchBags.map (fun b => mergeOpsBags [andBag, b]))

/-- The result union of getFilterValue; the JS `undefined` return is
`.value .vUndefined`. -/
inductive FilterValueResult where
  | value (v : JsVal)
  | bag (b : OpsBag)
  | bags (bs : List OpsBag)

def isUndefined : JsVal → Bool
  | .vUndefined => true
  | _ => false

/-- The `if (op)` truthiness test: an omitted operator or the empty string is
falsy. -/
def truthyOp : Option String → Bool
  | none => false
  | some s => !(s == "")

/-- From get-filter-value.ts: a single operator value or bag for a field.
`ops[x] !== undefined` is `lookup` succeeding with a value other than
`vUndefined`. -/
def getFilterValue (query : JsVal) (fieldPath : String) (op : Option String)
    (options : Option OrMode) : FilterValueResult :=
  match getFilterOps query fieldPath options with
  | .undefined => .value .vUndefined
  | ops =>
    if truthyOp op then
      let opk := op.getD ""
      match ops with
      | .bags [] => .value .vUndefined
      | .bags (b :: _) => .value ((bagGet b opk).getD .vUndefined)
      | .bag b => .value ((bagGet b opk).getD .vUndefined)
      | .undefined => .value .vUndefined
    else
      match ops with
      | .bags [] => .bags []
      | .bags (b :: bs) =>
          match bagGet b "$eq" with
          | some v => if isUndefined v then .bags (b :: bs) else .value v
          | none => .bags (b :: bs)
      | .bag b =>
          match bagGet b "$eq" with
          | some v => if isUndefined v then .bag b else .value v
          | none => .bag b
      | .undefined => .value .vUndefined

/-- From are-queries-equal.ts: the checker's `isObject` type guard as
implemented: non-null, `typeof` `"object"`, not an array. (Its doc comment
says "plain object", but the implementation also accepts `Date`, `RegExp`,
and similar non-plain objects.) -/
def isObject : JsVal → Bool
  | .vNull => false
  | .vArr _ => false
  | v => jsTypeof v == "object"

/-- Enumerable own properties of a value: those of a plain object; an exotic
object exposes none. -/
def entriesOf : JsVal → JsFields
  | .vObj f => f
  | _ => .fnil

def jsKeys (v : JsVal) : List String := (entriesOf v).keys

/-- String order by code units, as `Array.prototype.sort`'s default comparator
orders strings. -/
def charsLe : List Char → List Char → Bool
  | [], _ => true
  | _ :: _, [] => false
  | a :: as, b :: bs =>
      if a.toNat < b.toNat then true
      else if b.toNat < a.toNat then false
      else charsLe as bs

def keyLe (a b : String) : Bool := charsLe a.data b.data

/-- `Object.keys(x).sort()`. -/
def sortKeys (l : List String) : List String :=
  List.insertionSort (fun a b => keyLe a b = true) l

mutual

/-- From are-queries-equal.ts: deep equality. The object case compares the
sorted key lists (the source's count check plus pairwise name check) and
then the per-key values; the source walks `a`'s sorted keys reading
`a[key]`/`b[key]`, which over a runtime object's distinct keys is the same
conjunction as walking `a`'s entries in insertion order against `b`'s
properties, done here so the recursion is structural. -/
def deepEqual (a b : JsVal) : Bool :=
  if strictEq a b then true
  else if isNullish a || isNullish b then strictEq a b
  else if jsTypeof a ≠ jsTypeof b then false
  else if jsTypeof a ≠ "object" then strictEq a b
  else
    match a, b with
    | .vArr xs, .vArr ys =>
        if xs.toList.length = ys.toList.length then deepEqualArr xs ys else false
    | .vArr _, _ => false
    | _, .vArr _ => false
    | .vObj fa, b' =>
        if !(isObject (.vObj fa) && isObject b') then false
        else if sortKeys (jsKeys (.vObj fa)) = sortKeys (jsKeys b') then
          deepEqualOwn fa b'
        else false
    | a', b' =>
        if !(isObject a' && isObject b') then false
        else if sortKeys (jsKeys a') = sortKeys (jsKeys b') then true
        else false

/-- `a.every((item, i) => deepEqual(item, b[i]))` under the guard that the
lengths match. -/
def deepEqualArr : JsArr → JsArr → Bool
  | .anil, .anil => true
  | .acons x xs, .acons y ys => deepEqual x y && deepEqualArr xs ys
  | _, _ => false

/-- `aKeys.every(key => deepEqual(a[key], b[key]))`, walking `a`'s entries. -/
def deepEqualOwn : JsFields → JsVal → Bool
  | .fnil, _ => true
  | .fcons k v fs, b =>
      deepEqual v (JsFields.lookupD (entriesOf b) k .vUndefined) && deepEqualOwn fs b

end

/-- From are-queries-equal.ts: the exported comparison. -/
def areQueriesEqual (query1 query2 : JsVal) : Bool :=
  deepEqual query1 query2

/-- From mql-operator.ts: the fixed closed set of recognized operator
tokens. -/
def mqlOperatorTokens : List String :=
  ["$eq", "$ne", "$gt", "$gte", "$lt", "$lte", "$in", "$nin", "$exists",
   "$regex", "$size", "$all", "$elemMatch", "$type", "$not",
   "$bitsAllSet", "$bitsAnySet", "$bitsAllClear", "$bitsAnyClear"]

/-! Concrete query documents used to instantiate the theorems below. -/

/-- `{a: {$gte: 1, b: 2}}`: a field whose mapping mixes an operator key with
a plain key. -/
def qMixedKeys : JsVal :=
  .vObj (.fcons "a"
    (.vObj (.fcons "$gte" (.vNum 1) (.fcons "b" (.vNum 2) .fnil))) .fnil)

/-- The inner mapping `{$gte: 1, b: 2}` of `qMixedKeys`. -/
def qMixedKeysInner : JsVal :=
  .vObj (.fcons "$gte" (.vNum 1) (.fcons "b" (.vNum 2) .fnil))

/-- `{age: {$bogus: 1}}`: a sigil-prefixed key outside the fixed operator
set. -/
def qBogusOp : JsVal :=
  .vObj (.fcons "age" (.vObj (.fcons "$bogus" (.vNum 1) .fnil)) .fnil)

/-- `{$or: [{a: 1, $or: [{b: 2}, {c: 3}]}]}`: one alternative holding both a
direct field constraint and its own nested `$or`. -/
def qOrMixedAlt : JsVal :=
  .vObj (.fcons "$or" (.vArr (.acons
    (.vObj (.fcons "a" (.vNum 1) (.fcons "$or" (.vArr
      (.acons (.vObj (.fcons "b" (.vNum 2) .fnil))
      (.acons (.vObj (.fcons "c" (.vNum 3) .fnil)) .anil))) .fnil))) .anil)) .fnil)

/-- `{$and: [{age: {$gte: 18}}], $or: [{age: {$lte: 25}}, {age: {$lte: 30}}]}`. -/
def qAndOr : JsVal :=
  .vObj (.fcons "$and" (.vArr (.acons
      (.vObj (.fcons "age" (.vObj (.fcons "$gte" (.vNum 18) .fnil)) .fnil)) .anil))
    (.fcons "$or" (.vArr
      (.acons (.vObj (.fcons "age" (.vObj (.fcons "$lte" (.vNum 25) .fnil)) .fnil))
      (.acons (.vObj (.fcons "age" (.vObj (.fcons "$lte" (.vNum 30) .fnil)) .fnil)) .anil)))
      .fnil))

/-- `{$or: [{age: {$gte: 18}}, {email: "x@y.com"}]}`: an OR that never
mentions `name`. -/
def qOrNoName : JsVal :=
  .vObj (.fcons "$or" (.vArr
    (.acons (.vObj (.fcons "age" (.vObj (.fcons "$gte" (.vNum 18) .fnil)) .fnil))
    (.acons (.vObj (.fcons "email" (.vStr "x@y.com") .fnil)) .anil))) .fnil)

/-- `{name: "Alice"}`. -/
def qNameAlice : JsVal := .vObj (.fcons "name" (.vStr "Alice") .fnil)

/-- `{age: {$gte: 18, $lte: 30}}`. -/
def qAgeRange : JsVal :=
  .vObj (.fcons "age"
    (.vObj (.fcons "$gte" (.vNum 18) (.fcons "$lte" (.vNum 30) .fnil))) .fnil)

/-- `{$or: [{age: {$gte: 18}}, {age: {$gte: 21}}]}`. -/
def qOrTwoAges : JsVal :=
  .vObj (.fcons "$or" (.vArr
    (.acons (.vObj (.fcons "age" (.vObj (.fcons "$gte" (.vNum 18) .fnil)) .fnil))
    (.acons (.vObj (.fcons "age" (.vObj (.fcons "$gte" (.vNum 21) .fnil)) .fnil)) .anil)))
    .fnil)

/-- `{$and: [{a: 1}, {b: 2}]}`. -/
def qAndAB : JsVal :=
  .vObj (.fcons "$and" (.vArr
    (.acons (.vObj (.fcons "a" (.vNum 1) .fnil))
    (.acons (.vObj (.fcons "b" (.vNum 2) .fnil)) .anil))) .fnil)

/-- `{$and: [{b: 2}, {a: 1}]}`: the same two conjuncts in the other order. -/
def qAndBA : JsVal :=
  .vObj (.fcons "$and" (.vArr
    (.acons (.vObj (.fcons "b" (.vNum 2) .fnil))
    (.acons (.vObj (.fcons "a" (.vNum 1) .fnil)) .anil))) .fnil)

/-- `{createdAt: <Date #0>}`: a query constraining a field to one date
object. -/
def qDateA : JsVal := .vObj (.fcons "createdAt" (.vExotic 0) .fnil)

/-- `{createdAt: <Date #1>}`: the same shape with a different date object. -/
def qDateB : JsVal := .vObj (.fcons "createdAt" (.vExotic 1) .fnil)

/-! Helper lemmas about the normalizer. `JsArr`/`JsFields` are part of a
mutual inductive family, so spine-only induction principles are stated by
hand. -/

theorem fieldsSpineInduction (motive : JsFields → Prop) (h0 : motive .fnil)
    (h1 : ∀ k v fs, motive fs → motive (.fcons k v fs)) : ∀ f, motive f
  | .fnil => h0
  | .fcons k v fs => h1 k v fs (fieldsSpineInduction motive h0 h1 fs)

theorem arrSpineInduction (motive : JsArr → Prop) (h0 : motive .anil)
    (h1 : ∀ x xs, motive xs → motive (.acons x xs)) : ∀ a, motive a
  | .anil => h0
  | .acons x xs => h1 x xs (arrSpineInduction motive h0 h1 xs)

theorem opPreds_eq_filter_map (path : String) (f : JsFields) :
    opPreds path f =
      (f.toList.filter (fun kv => isOperatorKey kv.1)).map
        (fun kv => Predicate.mk path kv.1 kv.2) := by
  induction f using fieldsSpineInduction with
  | h0 => rfl
  | h1 k v fs ih =>
      simp only [opPreds, JsFields.toList, List.filter_cons]
      by_cases h : isOperatorKey k = true
      · simp [h, ih]
      · simp [Bool.eq_false_iff.mpr h, h, ih]

theorem normalizeQuery_singleton (k : String) (v : JsVal) (bp : String) :
    normalizeQuery (.vObj (.fcons k v .fnil)) bp = normEntry k v bp := by
  show Normalized.mk ((normEntry k v bp).and ++ []) ((normEntry k v bp).or ++ []) = _
  simp

theorem normEntry_vObj (k : String) (f : JsFields) (bp : String) (hnor : k ≠ "$nor") :
    normEntry k (.vObj f) bp =
      if ((JsFields.keys f).filter isOperatorKey).isEmpty then
        normEntries f (mkPath bp k)
      else Normalized.mk (opPreds (mkPath bp k) f) [] := by
  simp [normEntry, hnor]

theorem normalizeQuery_vObj (f : JsFields) (bp : String) :
    normalizeQuery (.vObj f) bp = normEntries f bp := rfl

/-- C8: for every input that is not a plain mapping — null, undefined, a
primitive, or an array (and likewise a non-plain object, which has no
enumerable entries) — `normalizeQuery` returns the empty result
`{conjuncts: [], branches: []}`; the embedding is a total function, mirroring
that the source raises no exception on such input. -/
theorem normalizeQuery_not_plain_empty (q : JsVal) (bp : String)
    (h : isPlainObject q = false) :
    normalizeQuery q bp = Normalized.mk [] [] := by
  cases q <;> first
    | rfl
    | exact absurd h (by simp [isPlainObject])

/-- Witness for C8 at the spec's own examples: `null`, `undefined`, `42`,
`["x"]`. -/
theorem normalizeQuery_not_plain_empty_witness :
    normalizeQuery .vNull "" = Normalized.mk [] [] ∧
    normalizeQuery .vUndefined "" = Normalized.mk [] [] ∧
    normalizeQuery (.vNum 42) "" = Normalized.mk [] [] ∧
    normalizeQuery (.vArr (.acons (.vStr "x") .anil)) "" = Normalized.mk [] [] :=
  ⟨normalizeQuery_not_plain_empty _ _ rfl, normalizeQuery_not_plain_empty _ _ rfl,
   normalizeQuery_not_plain_empty _ _ rfl, normalizeQuery_not_plain_empty _ _ rfl⟩

/-- C1 (counterexample): on `{a: {$gte: 1, b: 2}}` — a mapping that mixes an
operator key with a non-operator key — the normalizer emits the operator
predicate `(a, $gte, 1)` and drops `b`; it does not equal the recursion
`normalize(value, "a")` that the claim prescribes for a mapping with at
least one non-operator key. -/
theorem normalize_mixed_mapping_cex :
    normalizeQuery qMixedKeys "" =
      Normalized.mk [Predicate.mk "a" "$gte" (.vNum 1)] [] ∧
    normalizeQuery qMixedKeysInner "a" =
      Normalized.mk
        [Predicate.mk "a.$gte" "$eq" (.vNum 1), Predicate.mk "a.b" "$eq" (.vNum 2)] [] ∧
    normalizeQuery qMixedKeys "" ≠ normalizeQuery qMixedKeysInner "a" := by
  refine ⟨rfl, rfl, fun h => ?_⟩
  have h' : Normalized.mk [Predicate.mk "a" "$gte" (.vNum 1)] [] =
      Normalized.mk
        [Predicate.mk "a.$gte" "$eq" (.vNum 1), Predicate.mk "a.b" "$eq" (.vNum 2)] [] := h
  simp at h'

/-- C1 (amended): for a field key whose value is a plain mapping, the
dichotomy turns on whether at least one key is an operator token: when the
mapping has AT LEAST ONE operator key, one conjunct predicate
`(effectivePath, token, tokenValue)` is emitted per OPERATOR key — entries
under non-operator keys are dropped — and recursion with the extended path
happens only when the mapping has NO operator key at all. -/
theorem normalize_field_mapping_dichotomy (k : String) (f : JsFields) (bp : String)
    (hnor : k ≠ "$nor") :
    normalizeQuery (.vObj (.fcons k (.vObj f) .fnil)) bp =
      if ((JsFields.keys f).filter isOperatorKey).isEmpty then
        normalizeQuery (.vObj f) (mkPath bp k)
      else
        Normalized.mk
          ((f.toList.filter (fun kv => isOperatorKey kv.1)).map
            (fun kv => Predicate.mk (mkPath bp k) kv.1 kv.2)) [] := by
  rw [normalizeQuery_singleton, normEntry_vObj k f bp hnor]
  split
  · rfl
  · rw [opPreds_eq_filter_map]

/-- Witness for C1 (amended) at `{a: {$gte: 1, b: 2}}`: the mixed mapping
takes the emit branch, keeping `$gte` and dropping `b`. -/
theorem normalize_field_mapping_dichotomy_witness :
    normalizeQuery qMixedKeys "" =
      Normalized.mk [Predicate.mk "a" "$gte" (.vNum 1)] [] := by
  have h := normalize_field_mapping_dichotomy "a"
    (.fcons "$gte" (.vNum 1) (.fcons "b" (.vNum 2) .fnil)) "" (by decide)
  exact h.trans rfl

/-- C4 (counterexample): `{age: {$bogus: 1}}` — the sigil-prefixed key
`$bogus` lies outside the fixed recognized operator set, yet normalization
emits the predicate `(age, $bogus, 1)` instead of falling back to raw-value
handling. -/
theorem unrecognized_sigil_emits_cex :
    normalizeQuery qBogusOp "" =
      Normalized.mk [Predicate.mk "age" "$bogus" (.vNum 1)] [] ∧
    "$bogus" ∉ mqlOperatorTokens :=
  ⟨rfl, by simp [mqlOperatorTokens]⟩

/-- C4 (amended): the runtime operator test is only the sigil prefix. For a
field key whose value is a non-empty plain mapping all of whose keys start
with `$`, one predicate per key is emitted — whether or not the key belongs
to the fixed recognized set, which exists only as a compile-time type. The
raw-value fallback applies only to keys without the sigil. -/
theorem sigil_only_operator_test (k : String) (f : JsFields) (bp : String)
    (hnor : k ≠ "$nor")
    (hall : ∀ kv ∈ f.toList, isOperatorKey kv.1 = true)
    (hne : f ≠ .fnil) :
    normalizeQuery (.vObj (.fcons k (.vObj f) .fnil)) bp =
      Normalized.mk
        (f.toList.map (fun kv => Predicate.mk (mkPath bp k) kv.1 kv.2)) [] := by
  rw [normalizeQuery_singleton, normEntry_vObj k f bp hnor]
  have hfilter : (JsFields.keys f).filter isOperatorKey = JsFields.keys f := by
    refine List.filter_eq_self.mpr ?_
    intro s hs
    obtain ⟨kv, hkv, rfl⟩ := List.mem_map.mp hs
    exact hall kv hkv
  have hkeysne : JsFields.keys f ≠ [] := by
    cases f with
    | fnil => exact absurd rfl hne
    | fcons k' v' fs' => simp [JsFields.keys, JsFields.toList]
  rw [hfilter, if_neg (by simpa [List.isEmpty_iff] using hkeysne)]
  rw [opPreds_eq_filter_map, List.filter_eq_self.mpr hall]

/-- Witness for C4 (amended) at `{age: {$bogus: 1}}`. -/
theorem sigil_only_operator_test_witness :
    normalizeQuery qBogusOp "" =
      Normalized.mk [Predicate.mk "age" "$bogus" (.vNum 1)] [] := by
  have h := sigil_only_operator_test "age" (.fcons "$bogus" (.vNum 1) .fnil) ""
    (by decide) (by intro kv hkv; simp [JsFields.toList] at hkv; simp [hkv, isOperatorKey])
    (fun h => JsFields.noConfusion h)
  exact h.trans rfl

theorem normOrList_eq_flatMap (alts : JsArr) (bp : String) :
    normOrList alts bp =
      alts.toList.flatMap (fun sub =>
        let n := normalizeQuery sub bp
        (if n.and.isEmpty then [] else [n.and]) ++ n.or) := by
  induction alts using arrSpineInduction with
  | h0 => rfl
  | h1 x xs ih => simp only [normOrList, JsArr.toList, List.flatMap_cons, ih, List.append_assoc]

/-- C2: a `$or` entry with an array value normalizes each alternative with
the same base path; an alternative's non-empty conjunct list becomes ONE
branch and its own nested branches are spliced in after it, so the branch
list is the in-order concatenation of these per-alternative groups — no
cross-product is formed. The second conjunct shows how any document entry,
`$or` included, contributes to the whole document's result; the third
evaluates the mixed alternative `{$or: [{a: 1, $or: [{b: 2}, {c: 3}]}]}` to
three separate branch groups rather than a disjunctive-normal-form
product. -/
theorem or_branches_shape :
    (∀ (alts : JsArr) (bp : String),
      normEntry "$or" (.vArr alts) bp =
        Normalized.mk []
          (alts.toList.flatMap (fun sub =>
            let n := normalizeQuery sub bp
            (if n.and.isEmpty then [] else [n.and]) ++ n.or))) ∧
    (∀ (k : String) (v : JsVal) (fs : JsFields) (bp : String),
      normalizeQuery (.vObj (.fcons k v fs)) bp =
        Normalized.mk ((normEntry k v bp).and ++ (normalizeQuery (.vObj fs) bp).and)
          ((normEntry k v bp).or ++ (normalizeQuery (.vObj fs) bp).or)) ∧
    normalizeQuery qOrMixedAlt "" =
      Normalized.mk []
        [[Predicate.mk "a" "$eq" (.vNum 1)],
         [Predicate.mk "b" "$eq" (.vNum 2)],
         [Predicate.mk "c" "$eq" (.vNum 3)]] := by
  refine ⟨fun alts bp => ?_, fun k v fs bp => rfl, rfl⟩
  rw [← normOrList_eq_flatMap]
  simp [normEntry]

/-! Helper lemmas about operator bags: JS property lookup and assignment. -/

theorem bagGet_nil (k : String) : bagGet [] k = none := rfl

theorem bagGet_cons (k' : String) (v' : JsVal) (fs : OpsBag) (k : String) :
    bagGet ((k', v') :: fs) k = if k' = k then some v' else bagGet fs k := by
  by_cases h : k' = k
  · simp [bagGet, List.find?_cons_of_pos, h]
  · simp only [bagGet]
    rw [List.find?_cons_of_neg]
    · simp [h]
    · simp [h]

theorem bagKeys_cons (k' : String) (v' : JsVal) (fs : OpsBag) :
    bagKeys ((k', v') :: fs) = k' :: bagKeys fs := rfl

theorem bagGet_eq_none_of_not_mem (bag : OpsBag) (k : String)
    (h : k ∉ bagKeys bag) : bagGet bag k = none := by
  induction bag with
  | nil => rfl
  | cons hd tl ih =>
      obtain ⟨k', v'⟩ := hd
      rw [bagKeys_cons, List.mem_cons, not_or] at h
      rw [bagGet_cons, if_neg (fun hh => h.1 hh.symm)]
      exact ih h.2

theorem bagGet_bagAssign (bag : OpsBag) (k : String) (v : JsVal) (k' : String) :
    bagGet (bagAssign bag k v) k' = if k = k' then some v else bagGet bag k' := by
  induction bag with
  | nil => simp [bagAssign, bagGet_cons]
  | cons hd tl ih =>
      obtain ⟨k0, v0⟩ := hd
      by_cases h0 : k0 = k
      · subst h0
        simp only [bagAssign, if_pos rfl]
        by_cases h1 : k0 = k'
        · simp [bagGet_cons, h1]
        · simp [bagGet_cons, h1]
      · simp only [bagAssign, if_neg h0]
        by_cases h1 : k0 = k'
        · subst h1
          rw [bagGet_cons, if_pos rfl, bagGet_cons, if_pos rfl,
            if_neg (fun h => h0 h.symm)]
        · rw [bagGet_cons, if_neg h1, ih, bagGet_cons, if_neg h1]

theorem bagKeys_bagAssign (bag : OpsBag) (k : String) (v : JsVal) :
    bagKeys (bagAssign bag k v) =
      if k ∈ bagKeys bag then bagKeys bag else bagKeys bag ++ [k] := by
  induction bag with
  | nil => simp [bagAssign, bagKeys]
  | cons hd tl ih =>
      obtain ⟨k0, v0⟩ := hd
      by_cases h0 : k0 = k
      · subst h0
        rw [bagAssign, if_pos rfl, bagKeys_cons, bagKeys_cons,
          if_pos (List.mem_cons_self _ _)]
      · rw [bagAssign, if_neg h0, bagKeys_cons, bagKeys_cons, ih]
        simp only [List.mem_cons]
        by_cases h1 : k ∈ bagKeys tl
        · rw [if_pos h1, if_pos (Or.inr h1)]
        · have hcond : ¬(k = k0 ∨ k ∈ bagKeys tl) := by
            rintro (hh | hh)
            · exact h0 hh.symm
            · exact h1 hh
          rw [if_neg h1, if_neg hcond, List.cons_append]

theorem nodup_bagAssign (bag : OpsBag) (k : String) (v : JsVal)
    (h : (bagKeys bag).Nodup) : (bagKeys (bagAssign bag k v)).Nodup := by
  rw [bagKeys_bagAssign]
  by_cases hk : k ∈ bagKeys bag
  · simpa [hk] using h
  · simp [hk, List.nodup_append, h]

theorem nodup_bagFromPreds_aux (preds : List Predicate) (acc : OpsBag)
    (h : (bagKeys acc).Nodup) :
    (bagKeys (preds.foldl (fun bag p => bagAssign bag p.op p.value) acc)).Nodup := by
  induction preds generalizing acc with
  | nil => exact h
  | cons p ps ih => exact ih _ (nodup_bagAssign _ _ _ h)

theorem nodup_bagFromPreds (preds : List Predicate) :
    (bagKeys (bagFromPreds preds)).Nodup :=
  nodup_bagFromPreds_aux preds [] (by simp [bagKeys])

/-- `Object.assign(acc, b)` looks up through `b` first, then `acc`: keys of
`b` overwrite keys of `acc`. -/
theorem bagGet_assignAll (b : OpsBag) (acc : OpsBag) (k : String)
    (hb : (bagKeys b).Nodup) :
    bagGet (assignAll acc b) k =
      match bagGet b k with
      | some v => some v
      | none => bagGet acc k := by
  induction b generalizing acc with
  | nil => rfl
  | cons hd tl ih =>
      obtain ⟨k0, v0⟩ := hd
      rw [bagKeys_cons] at hb
      obtain ⟨hk0, htl⟩ := List.nodup_cons.mp hb
      show bagGet (assignAll (bagAssign acc k0 v0) tl) k = _
      rw [ih _ htl, bagGet_cons]
      by_cases h : k0 = k
      · subst h
        rw [bagGet_eq_none_of_not_mem tl _ hk0]
        simp [bagGet_bagAssign]
      · rw [if_neg h]
        cases bagGet tl k with
        | some v => rfl
        | none => simp [bagGet_bagAssign, h]

/-- Looking up a two-bag merge: the second bag's entry wins, else the first
bag's. -/
theorem bagGet_mergeTwo (a b : OpsBag) (k : String)
    (ha : (bagKeys a).Nodup) (hb : (bagKeys b).Nodup) :
    bagGet (mergeOpsBags [a, b]) k =
      match bagGet b k with
      | some v => some v
      | none => bagGet a k := by
  show bagGet (assignAll (assignAll [] a) b) k = _
  rw [bagGet_assignAll b _ k hb]
  cases hbk : bagGet b k with
  | some v => rfl
  | none =>
      rw [bagGet_assignAll a _ k ha]
      cases hak : bagGet a k with
      | some v => rfl
      | none => rfl

theorem or_isEmpty_false_of_branchBags (q : JsVal) (p : String)
    (h : branchBagsOf q p ≠ []) : ((normalizeQuery q "").or).isEmpty = false := by
  by_cases hh : ((normalizeQuery q "").or).isEmpty
  · exact absurd (by simp [branchBagsOf, List.isEmpty_iff.mp hh]) h
  · exact Bool.eq_false_iff.mpr hh

theorem nodup_branchBag (q : JsVal) (p : String) (b : OpsBag)
    (hmem : b ∈ branchBagsOf q p) : (bagKeys b).Nodup := by
  have h1 := (List.mem_filter.mp hmem).1
  obtain ⟨branch, _, hfn⟩ := List.mem_map.mp h1
  exact hfn ▸ nodup_bagFromPreds _

theorem nodup_andBagOf (q : JsVal) (p : String) : (bagKeys (andBagOf q p)).Nodup :=
  nodup_bagFromPreds _

/-- C3: when at least one OR-branch mentions the field, the default
(`"first"`) mode returns the AND-level bag merged with the FIRST non-empty
branch bag in document order — the tail of the qualifying-branch list does
not appear in the result — and on a colliding operator key the branch bag's
value overwrites the AND bag's. -/
theorem getFilterOps_default_first (q : JsVal) (p : String) (b : OpsBag)
    (bs : List OpsBag) (hbb : branchBagsOf q p = b :: bs) :
    getFilterOps q p none = .bag (mergeOpsBags [andBagOf q p, b]) ∧
    ∀ k, bagGet (mergeOpsBags [andBagOf q p, b]) k =
      match bagGet b k with
      | some v => some v
      | none => bagGet (andBagOf q p) k := by
  constructor
  · have hor := or_isEmpty_false_of_branchBags q p (by rw [hbb]; exact List.cons_ne_nil _ _)
    unfold getFilterOps
    rw [hor, hbb]
    rfl
  · intro k
    exact bagGet_mergeTwo _ _ k (nodup_andBagOf q p)
      (nodup_branchBag q p b (hbb ▸ List.mem_cons_self _ _))

/-- Witness for C3 at the spec's example
`{$and: [{age: {$gte: 18}}], $or: [{age: {$lte: 25}}, {age: {$lte: 30}}]}`:
the first branch wins and merges with the AND part into
`{$gte: 18, $lte: 25}`. -/
theorem getFilterOps_default_first_witness :
    branchBagsOf qAndOr "age" = [[("$lte", .vNum 25)], [("$lte", .vNum 30)]] ∧
    getFilterOps qAndOr "age" none = .bag [("$gte", .vNum 18), ("$lte", .vNum 25)] :=
  ⟨rfl, (getFilterOps_default_first qAndOr "age" [("$lte", .vNum 25)]
      [[("$lte", .vNum 30)]] rfl).1⟩

/-- C6: when branches are present but none of them mentions the field (every
per-branch bag for the field is empty), the extractor returns the AND-level
bag when it is non-empty and the undefined/ABSENT sentinel otherwise, in
every branch mode. -/
theorem getFilterOps_or_transparent (q : JsVal) (p : String) (opts : Option OrMode)
    (hor : (normalizeQuery q "").or ≠ [])
    (hbb : branchBagsOf q p = []) :
    getFilterOps q p opts =
      (if (andBagOf q p).isEmpty then .undefined else .bag (andBagOf q p)) := by
  unfold getFilterOps
  rw [show ((normalizeQuery q "").or).isEmpty = false from
      Bool.eq_false_iff.mpr (fun hh => hor (List.isEmpty_iff.mp hh)), hbb]
  rfl

/-- Witness for C6 at the spec's example
`getConstraints({$or: [{age: {$gte: 18}}, {email: "x@y.com"}]}, "name")`:
the result is the ABSENT sentinel. -/
theorem getFilterOps_or_transparent_witness :
    getFilterOps qOrNoName "name" none = .undefined :=
  getFilterOps_or_transparent qOrNoName "name" none (List.cons_ne_nil _ _) rfl

/-- C7: when extraction produces a single operator bag, the value getter
called without an operator token collapses the bag to its `$eq` value when
the bag holds one (the JS presence test: the entry exists and is not
`undefined`) and otherwise returns the bag itself unchanged. -/
theorem getFilterValue_eq_collapse (q : JsVal) (p : String) (opts : Option OrMode)
    (b : OpsBag) (hops : getFilterOps q p opts = .bag b) :
    getFilterValue q p none opts =
      match bagGet b "$eq" with
      | some v => if isUndefined v then .bag b else .value v
      | none => .bag b := by
  unfold getFilterValue
  rw [hops]
  rfl

/-- Witness for C7 at the spec's examples: `getValue({name: "Alice"}, "name")`
collapses to `"Alice"`, while `getValue({age: {$gte: 18, $lte: 30}}, "age")`
returns the bag unchanged since no equality is present. -/
theorem getFilterValue_eq_collapse_witness :
    getFilterValue qNameAlice "name" none none = .value (.vStr "Alice") ∧
    getFilterValue qAgeRange "age" none none =
      .bag [("$gte", .vNum 18), ("$lte", .vNum 30)] :=
  ⟨getFilterValue_eq_collapse qNameAlice "name" none [("$eq", .vStr "Alice")] rfl,
   getFilterValue_eq_collapse qAgeRange "age" none
     [("$gte", .vNum 18), ("$lte", .vNum 30)] rfl⟩

/-- C10: whenever the `"all"` branch mode yields an array of merged bags, the
default `"first"` mode on the same query and field yields exactly the first
element of that array. -/
theorem getFilterOps_first_is_head_of_all (q : JsVal) (p : String)
    (bs : List OpsBag) (h : getFilterOps q p (some .all) = .bags bs) :
    ∃ b rest, bs = b :: rest ∧ getFilterOps q p none = .bag b := by
  cases hor : ((normalizeQuery q "").or).isEmpty with
  | true =>
      have hv : getFilterOps q p (some .all) =
          (if (andBagOf q p).isEmpty then .undefined else .bag (andBagOf q p)) := by
        unfold getFilterOps
        rw [hor]
        rfl
      rw [hv] at h
      exfalso
      by_cases h2 : (andBagOf q p).isEmpty
      · rw [if_pos h2] at h; exact FilterOpsResult.noConfusion h
      · rw [if_neg h2] at h; exact FilterOpsResult.noConfusion h
  | false =>
      cases hbb : branchBagsOf q p with
      | nil =>
          have hv : getFilterOps q p (some .all) =
              (if (andBagOf q p).isEmpty then .undefined else .bag (andBagOf q p)) := by
            unfold getFilterOps
            rw [hor, hbb]
            rfl
          rw [hv] at h
          exfalso
          by_cases h2 : (andBagOf q p).isEmpty
          · rw [if_pos h2] at h; exact FilterOpsResult.noConfusion h
          · rw [if_neg h2] at h; exact FilterOpsResult.noConfusion h
      | cons b0 rest0 =>
          have hall : getFilterOps q p (some .all) =
              .bags ((b0 :: rest0).map (fun x => mergeOpsBags [andBagOf q p, x])) := by
            unfold getFilterOps
            rw [hor, hbb]
            rfl
          have hfirst : getFilterOps q p none = .bag (mergeOpsBags [andBagOf q p, b0]) := by
            unfold getFilterOps
            rw [hor, hbb]
            rfl
          rw [hall] at h
          injection h with h'
          refine ⟨mergeOpsBags [andBagOf q p, b0],
            rest0.map (fun x => mergeOpsBags [andBagOf q p, x]), ?_, hfirst⟩
          rw [← h', List.map_cons]

/-- Witness for C10 at `{$or: [{age: {$gte: 18}}, {age: {$gte: 21}}]}`:
`"all"` mode yields two bags and the default mode yields the first. -/
theorem getFilterOps_first_is_head_of_all_witness :
    getFilterOps qOrTwoAges "age" none = .bag [("$gte", .vNum 18)] := by
  obtain ⟨b, rest, hbs, hfirst⟩ := getFilterOps_first_is_head_of_all qOrTwoAges "age"
    [[("$gte", .vNum 18)], [("$gte", .vNum 21)]] rfl
  injection hbs with hb _
  rw [hb]
  exact hfirst

/-! Helper lemmas about the equivalence checker. -/

theorem deepEqual_vArr (xs ys : JsArr) :
    deepEqual (.vArr xs) (.vArr ys) =
      if xs.toList.length = ys.toList.length then deepEqualArr xs ys else false := rfl

theorem deepEqualArr_iff (xs : JsArr) : ∀ ys : JsArr,
    deepEqualArr xs ys = true ↔
      (xs.toList.length = ys.toList.length ∧
       ∀ (i : Nat) (hx : i < xs.toList.length) (hy : i < ys.toList.length),
         deepEqual (xs.toList[i]) (ys.toList[i]) = true) := by
  induction xs using arrSpineInduction with
  | h0 =>
      intro ys
      cases ys with
      | anil => simp [deepEqualArr, JsArr.toList]
      | acons y ys' => simp [deepEqualArr, JsArr.toList]
  | h1 x xs ih =>
      intro ys
      cases ys with
      | anil => simp [deepEqualArr, JsArr.toList]
      | acons y ys' =>
          rw [show deepEqualArr (.acons x xs) (.acons y ys') =
              (deepEqual x y && deepEqualArr xs ys') from rfl]
          constructor
          · intro h
            rw [Bool.and_eq_true] at h
            obtain ⟨hhd, htl⟩ := h
            obtain ⟨hlen, hidx⟩ := (ih ys').mp htl
            refine ⟨by simp [JsArr.toList, hlen], ?_⟩
            intro i hi1 hi2
            cases i with
            | zero => simpa [JsArr.toList] using hhd
            | succ n =>
                have hn1 : n < xs.toList.length := by
                  simpa [JsArr.toList, Nat.succ_lt_succ_iff] using hi1
                have hn2 : n < ys'.toList.length := by
                  simpa [JsArr.toList, Nat.succ_lt_succ_iff] using hi2
                simpa [JsArr.toList] using hidx n hn1 hn2
          · intro h
            obtain ⟨hlen, hidx⟩ := h
            rw [Bool.and_eq_true]
            refine ⟨?_, (ih ys').mpr ⟨?_, ?_⟩⟩
            · simpa [JsArr.toList] using
                hidx 0 (by simp [JsArr.toList]) (by simp [JsArr.toList])
            · simpa [JsArr.toList] using hlen
            · intro n hn1 hn2
              have h1 : n + 1 < (JsArr.acons x xs).toList.length := by
                simp [JsArr.toList]; omega
              have h2 : n + 1 < (JsArr.acons y ys').toList.length := by
                simp [JsArr.toList]; omega
              simpa [JsArr.toList] using hidx (n + 1) h1 h2

/-- C9: two arrays are deep-equal exactly when they have equal length and are
pairwise deep-equal at identical indices; array order is therefore
significant, and the logically equivalent documents `{$and: [{a: 1}, {b: 2}]}`
and `{$and: [{b: 2}, {a: 1}]}` are reported unequal. -/
theorem deepEqual_array_pairwise :
    (∀ xs ys : JsArr,
      deepEqual (.vArr xs) (.vArr ys) = true ↔
        (xs.toList.length = ys.toList.length ∧
         ∀ (i : Nat) (hx : i < xs.toList.length) (hy : i < ys.toList.length),
           deepEqual (xs.toList[i]) (ys.toList[i]) = true)) ∧
    areQueriesEqual qAndAB qAndBA = false := by
  refine ⟨fun xs ys => ?_, rfl⟩
  rw [deepEqual_vArr]
  by_cases hlen : xs.toList.length = ys.toList.length
  · rw [if_pos hlen, deepEqualArr_iff]
  · rw [if_neg hlen]
    simp [hlen]

/-- Witness for C9: the pairwise characterization applied at two singleton
arrays holding the number 7. -/
theorem deepEqual_array_pairwise_witness :
    deepEqual (.vArr (.acons (.vNum 7) .anil)) (.vArr (.acons (.vNum 7) .anil)) = true := by
  refine (deepEqual_array_pairwise.1 _ _).mpr ⟨rfl, ?_⟩
  intro i hx _
  cases i with
  | zero => exact rfl
  | succ n => exact absurd hx (by simp [JsArr.toList])

/-- C5: the checker does NOT fall back to strict identity for values that are
neither primitives, nor arrays, nor plain objects. Two distinct date objects
(different references, so not strictly equal) pass the `isObject` guard —
whose implementation accepts any non-array object, leaving the
identity-fallback branch unreachable — expose no enumerable own keys, and
therefore compare deep-EQUAL, to each other and even to an empty plain
mapping; at the API level two queries constraining a field to different date
objects are reported equal. -/
theorem deepEqual_exotic_structural :
    isObject (.vExotic 0) = true ∧
    strictEq (.vExotic 0) (.vExotic 1) = false ∧
    deepEqual (.vExotic 0) (.vExotic 1) = true ∧
    areQueriesEqual qDateA qDateB = true ∧
    deepEqual (.vExotic 0) (.vObj .fnil) = true :=
  ⟨rfl, rfl, rfl, rfl, rfl⟩
